import Mathlib

/-!
Verification of the mxflib KLV streaming layer and partition/metadata layer.

The development shallowly embeds the code of src/mxflib/klvobject.h and
src/mxflib/partition.h.  Machine integers are modelled as Nat/Int with the
C++ conversions made explicit; size_t is parametrised by its byte width w
(4 on 32-bit platforms, 8 on 64-bit platforms).  Method bodies that live in
source files of the repository that are not present under src (klvobject.cpp,
partition.cpp, the BER helpers) are modelled from the specification; each
such definition carries a doc comment saying so.
-/

namespace Mxflib

/- ===================== KLV cursor model (klvobject.h) ===================== -/

/-- An MXFFile, reduced to the data the embedded methods consult: an identity
and the current file position returned by Tell(). -/
structure MXFFile where
  fid : Nat
  tellPos : Int
deriving DecidableEq

/-- KLVObject::KLVInfo from klvobject.h: source or destination info record. -/
structure KLVInfo where
  Valid : Bool
  File : Option MXFFile
  Offset : Int
  OuterLength : Int
  KLSize : Int
deriving DecidableEq

/-- The KLVInfo default constructor: Valid=false, Offset=-1, OuterLength=0,
KLSize=-1, null File. -/
def KLVInfo.initial : KLVInfo :=
  { Valid := false, File := none, Offset := -1, OuterLength := 0, KLSize := -1 }

/-- KLVObject state: the fields of class KLVObject that the embedded methods
touch.  Data is the DataChunk contents (Data.Size = Data.length). -/
structure KLVObject where
  Source : KLVInfo
  Dest : KLVInfo
  ValueLength : Int
  Data : List Nat
  DataBase : Int
deriving DecidableEq

/-- KLVObject::SetSource (klvobject.h lines 204-216): set the source record;
if the destination is not yet valid, copy the whole source record into it. -/
def SetSource (s : KLVObject) (f : MXFFile) (loc : Int) : KLVObject :=
  let src : KLVInfo :=
    { s.Source with
      Valid := true
      File := some f
      Offset := if loc < 0 then f.tellPos else loc }
  { s with Source := src, Dest := if s.Dest.Valid then s.Dest else src }

/-- KLVObject::SetDestination (klvobject.h lines 222-229). -/
def SetDestination (s : KLVObject) (f : MXFFile) (loc : Int) : KLVObject :=
  { s with
    Dest :=
      { s.Dest with
        Valid := true
        File := some f
        Offset := if loc < 0 then f.tellPos else loc } }

/-- KLVObject::GetKLSize (klvobject.h line 251):
return Source.KLSize >= 0 ? Source.KLSize : Dest.KLSize. -/
def GetKLSize (s : KLVObject) : Int :=
  if s.Source.KLSize ≥ 0 then s.Source.KLSize else s.Dest.KLSize

/-- KLVObject::SetKLSize (klvobject.h line 256): Dest.KLSize = NewKLSize. -/
def SetKLSize (s : KLVObject) (n : Int) : KLVObject :=
  { s with Dest := { s.Dest with KLSize := n } }

/-- KLVObject::SetDataBase (klvobject.h line 275): DataBase = NewBase. -/
def SetDataBase (s : KLVObject) (p : Int) : KLVObject :=
  { s with DataBase := p }

/-- KLVObject::GetDataBase (klvobject.h line 270). -/
def GetDataBase (s : KLVObject) : Int := s.DataBase

/-- KLVObject::SetLength (klvobject.h line 428):
ValueLength = Dest.OuterLength = Source.OuterLength = NewLength. -/
def SetLength (s : KLVObject) (n : Int) : KLVObject :=
  { s with
    ValueLength := n
    Dest := { s.Dest with OuterLength := n }
    Source := { s.Source with OuterLength := n } }

/-- The materialised-cursor invariant stated by the spec:
0 ≤ DataBase and DataBase + chunk size ≤ ValueLength. -/
def klvInvariant (s : KLVObject) : Prop :=
  0 ≤ s.DataBase ∧ s.DataBase + (s.Data.length : Int) ≤ s.ValueLength

instance (s : KLVObject) : Decidable (klvInvariant s) := by
  unfold klvInvariant; infer_instance

/- ============ WriteDataFromTo model (klvobject.h lines 373-389) ============ -/

/-- C++ conversion of a size_t value (given as its Nat value, < 2^(8*w)) to
Length = Int64.  For w < 8 the value is preserved (zero-extension); for w = 8
values at or above 2^63 wrap to negatives. -/
def toLength (w : Nat) (sz : Nat) : Int :=
  if w < 8 then (sz : Int)
  else if sz < 2 ^ 63 then (sz : Int) else (sz : Int) - 2 ^ 64

/-- C++ static_cast of a Length = Int64 value back to size_t of byte width w:
reduction modulo 2^(8*w). -/
def toSizeT (w : Nat) (b : Int) : Nat :=
  (b % (2 ^ (8 * w))).toNat

/-- Outcome of KLVObject::WriteDataFromTo, up to the call into
Base_WriteDataTo.  chunkTooLarge models the error("Tried to write > 4GBytes,
...") branch that returns 0 without calling Base_WriteDataTo; baseCall
records the buffer index (Start, from the expression Data.Data[Start]), the
value-field offset, and the byte count passed to Base_WriteDataTo. -/
inductive WriteResult where
  | chunkTooLarge : WriteResult
  | baseCall (bufStart : Int) (offset : Int) (size : Nat) : WriteResult
deriving DecidableEq

/-- The local variable BytesToWrite of WriteDataFromTo after the two
statements that compute it:
Length BytesToWrite = Data.Size - Start;
if((Size > 0) && ((Length)Size < BytesToWrite)) BytesToWrite = Size;
dataSize is Data.Size as a Nat, sz the size_t argument as a Nat. -/
def bytesToWrite (w : Nat) (dataSize : Nat) (start : Int) (sz : Nat) : Int :=
  let b0 : Int := (dataSize : Int) - start
  if 0 < sz ∧ toLength w sz < b0 then toLength w sz else b0

/-- KLVObject::WriteDataFromTo (klvobject.h lines 373-389) on a platform with
size_t of byte width w. -/
def WriteDataFromTo (w : Nat) (dataSize : Nat) (offset start : Int) (sz : Nat) :
    WriteResult :=
  let b := bytesToWrite w dataSize start sz
  if w < 8 ∧ (0xffffffff : Int) < b then WriteResult.chunkTooLarge
  else WriteResult.baseCall start offset (toSizeT w b)

/- ================= BER length codec (modelled from the spec) ================= -/

/-- Modelled from the spec: the big-endian byte string of a value, written on
exactly n bytes (the BER helpers of the repository live in source files that
are not present under src). -/
def natToBytesBE : Nat → Nat → List Nat
  | 0, _ => []
  | n + 1, v => natToBytesBE n (v / 256) ++ [v % 256]

/-- Modelled from the spec: big-endian unsigned interpretation of a byte
string. -/
def bytesToNatBE (bs : List Nat) : Nat :=
  bs.foldl (fun a b => a * 256 + b) 0

/-- Modelled from the spec: min_width, the minimum number of big-endian bytes
that fit a length value (lengths are below 2^63, so at most 8 bytes). -/
def berLenBytes (v : Nat) : Nat :=
  if v < 2 ^ 8 then 1
  else if v < 2 ^ 16 then 2
  else if v < 2 ^ 24 then 3
  else if v < 2 ^ 32 then 4
  else if v < 2 ^ 40 then 5
  else if v < 2 ^ 48 then 6
  else if v < 2 ^ 56 then 7
  else 8

/-- Modelled from the spec: encode_min_width.  Values below 0x80 use the
short form; larger values use the long form with the minimal byte count. -/
def berEncode (v : Nat) : List Nat :=
  if v < 0x80 then [v]
  else (0x80 + berLenBytes v) :: natToBytesBE (berLenBytes v) v

/-- Modelled from the spec: encode_fixed_width with w length bytes: long form
0x80+w followed by w big-endian bytes, padding with leading zero bytes; none
when the request is unencodable (w outside 1..8, or value too large). -/
def berEncodeFixed (v w : Nat) : Option (List Nat) :=
  if 1 ≤ w ∧ w ≤ 8 ∧ v < 256 ^ w then some ((0x80 + w) :: natToBytesBE w v)
  else none

/-- Modelled from the spec: BER length decoding over a byte stream.  Reads
one byte b; if b < 0x80 the length is b, else n = b AND 0x7F with 1 ≤ n ≤ 8
required, and the length is the big-endian value of the next n bytes.
Returns the decoded length and the remaining stream; none models
MalformedLength (n = 0 or n > 8) and truncation. -/
def berDecode : List Nat → Option (Nat × List Nat)
  | [] => none
  | b :: rest =>
    if b < 0x80 then some (b, rest)
    else
      let n := b - 0x80
      if 1 ≤ n ∧ n ≤ 8 ∧ n ≤ rest.length then
        some (bytesToNatBE (rest.take n), rest.drop n)
      else none

/- ====== Partition reference resolver (partition.h; modelled from the spec) ====== -/

/-- A UUID, compared bytewise; modelled by its 128-bit value. -/
abbrev UUID := Nat

/-- A strong or weak reference property carried by a metadata object: the
slot's kind and the target UUID. -/
structure MDRef where
  isStrong : Bool
  target : UUID
deriving DecidableEq

/-- A metadata object as the resolver sees it: an identity (the MDObject
pointer), an optional InstanceUID property, and its reference properties in
property order. -/
structure MDObject where
  oid : Nat
  instanceUID : Option UUID
  refs : List MDRef
deriving DecidableEq

/-- A resolved reference: referrer object, slot kind, and the object the
slot now points to. -/
structure ResolvedLink where
  referrer : Nat
  isStrong : Bool
  target : Nat
deriving DecidableEq

/-- The reference-resolving state of class Partition (partition.h lines
58-63): AllMetadata, TopLevelMetadata, RefTargets (UUID to object, unique
keys), UnmatchedRefs (multimap of UUID to referrer and slot kind), plus the
links already resolved. -/
structure PartitionMeta where
  AllMetadata : List MDObject
  TopLevelMetadata : List MDObject
  RefTargets : List (UUID × Nat)
  UnmatchedRefs : List (UUID × Nat × Bool)
  Resolved : List ResolvedLink
deriving DecidableEq

/-- The state after Partition::ClearMetadata / construction: all tables
empty. -/
def emptyPartitionMeta : PartitionMeta :=
  { AllMetadata := [], TopLevelMetadata := [], RefTargets := [],
    UnmatchedRefs := [], Resolved := [] }

/-- Association-list lookup with the leftmost binding winning, as std::map
find does on the unique-key RefTargets table. -/
def alookup : List (UUID × Nat) → UUID → Option Nat
  | [], _ => none
  | e :: rest, u => if e.1 = u then some e.2 else alookup rest u

/-- Modelled from the spec (partition.cpp is not present under src):
InstanceUID handling — the object's UUID is inserted into RefTargets
(overwriting any stale binding), and every UnmatchedRefs entry with the same
UUID is drained and resolved to this object. -/
def registerTarget (p : PartitionMeta) (u : UUID) (oid : Nat) : PartitionMeta :=
  { p with
    RefTargets := (u, oid) :: p.RefTargets.filter (fun e => decide (e.1 ≠ u))
    UnmatchedRefs := p.UnmatchedRefs.filter (fun e => decide (e.1 ≠ u))
    Resolved := p.Resolved ++
      (p.UnmatchedRefs.filter (fun e => decide (e.1 = u))).map
        (fun e => { referrer := e.2.1, isStrong := e.2.2, target := oid }) }

/-- Modelled from the spec: reference registration — a reference UUID found
in RefTargets is linked immediately, otherwise the reference is recorded in
UnmatchedRefs. -/
def processRef (p : PartitionMeta) (a : Nat) (r : MDRef) : PartitionMeta :=
  match alookup p.RefTargets r.target with
  | some t => { p with Resolved := p.Resolved ++ [⟨a, r.isStrong, t⟩] }
  | none => { p with UnmatchedRefs := p.UnmatchedRefs ++ [(r.target, a, r.isStrong)] }

/-- Modelled from the spec: Partition::ProcessChildRefs for one parsed set —
the object joins AllMetadata, its InstanceUID (if any) is registered, and
each of its outgoing references is satisfied or recorded as unmatched. -/
def processObject (p : PartitionMeta) (o : MDObject) : PartitionMeta :=
  let p1 := { p with AllMetadata := p.AllMetadata ++ [o] }
  let p2 :=
    match o.instanceUID with
    | some u => registerTarget p1 u o.oid
    | none => p1
  o.refs.foldl (fun q r => processRef q o.oid r) p2

/-- Object identities of all resolved strong-reference targets. -/
def strongTargets (p : PartitionMeta) : List Nat :=
  (p.Resolved.filter (fun l => l.isStrong)).map (fun l => l.target)

/-- Modelled from the spec: top-level metadata is computed as the complement
of the set of strong-reference targets within AllMetadata. -/
def computeTopLevel (p : PartitionMeta) : List MDObject :=
  p.AllMetadata.filter (fun o => decide (o.oid ∉ strongTargets p))

/-- Modelled from the spec: Partition::ReadMetadata over an already-decoded
sequence of header metadata sets — each set is processed in byte order, then
TopLevelMetadata is computed at finalisation. -/
def ReadMetadata (objs : List MDObject) : PartitionMeta :=
  let p := objs.foldl processObject emptyPartitionMeta
  { p with TopLevelMetadata := computeTopLevel p }

/-- Partition::IsMetadataComplete (partition.h lines 139-143): emits the
warning "not yet implemented" and returns false, whatever the state. -/
def IsMetadataComplete (_p : PartitionMeta) : Bool × List String :=
  (false, ["Partition::IsMetadataComplete() not yet implemented"])

/-- The (InstanceUID, object identity) pairs contributed by a list of parsed
sets, in parse order. -/
def uidPairs : List MDObject → List (UUID × Nat)
  | [] => []
  | o :: rest =>
    (match o.instanceUID with
     | some u => [(u, o.oid)]
     | none => []) ++ uidPairs rest

/-- The (referrer identity, reference property) pairs contributed by a list
of parsed sets, in parse order. -/
def refPairs : List MDObject → List (Nat × MDRef)
  | [] => []
  | o :: rest => o.refs.map (fun r => (o.oid, r)) ++ refPairs rest

/-- A registration table is key-functional: one object per UUID. -/
def TFun (T : List (UUID × Nat)) : Prop :=
  ∀ u t t', (u, t) ∈ T → (u, t') ∈ T → t = t'

/-- The resolver invariant tying a partition state to the registrations T and
the processed references R seen so far: AllMetadata is the processed sets,
RefTargets answers exactly T, UnmatchedRefs holds exactly the processed
references whose UUID has no registration, and Resolved holds exactly the
processed references whose UUID is registered. -/
structure ResolverInv (A : List MDObject) (T : List (UUID × Nat))
    (R : List (Nat × MDRef)) (p : PartitionMeta) : Prop where
  allEq : p.AllMetadata = A
  refT : ∀ u t, alookup p.RefTargets u = some t ↔ (u, t) ∈ T
  unmatchedEq : ∀ u a s, (u, a, s) ∈ p.UnmatchedRefs ↔
    ((a, MDRef.mk s u) ∈ R ∧ ∀ t, (u, t) ∉ T)
  resolvedEq : ∀ l, l ∈ p.Resolved ↔
    ∃ u, (l.referrer, MDRef.mk l.isStrong u) ∈ R ∧ (u, l.target) ∈ T

/- ===== Sequential essence iteration (partition.h; modelled from the spec) ===== -/

/-- The kinds of KLV item that matter to essence iteration: essence items,
KLV-Fill items, and partition packs. -/
inductive ItemKind where
  | essence : ItemKind
  | fill : ItemKind
  | pack : ItemKind
deriving DecidableEq

/-- A KLV item of the body region, reduced to its kind and sizes: KL size
(key plus length field) and value length. -/
structure BodyItem where
  kind : ItemKind
  klSize : Nat
  valueLen : Nat
deriving DecidableEq

/-- Total byte size of one KLV item. -/
def itemSize (i : BodyItem) : Nat := i.klSize + i.valueLen

/-- Total byte size of a run of consecutive KLV items. -/
def itemsSize : List BodyItem → Nat
  | [] => 0
  | i :: rest => itemSize i + itemsSize rest

/-- The KLV item starting at byte offset pos of a contiguous layout; none
when pos is not an item boundary. -/
def itemAt : List BodyItem → Nat → Option BodyItem
  | [], _ => none
  | i :: rest, pos =>
    if pos = 0 then some i
    else if pos < itemSize i then none
    else itemAt rest (pos - itemSize i)

/-- Modelled from the spec (partition.cpp is not present under src):
Partition::Skip — skip over the KLV packet at start, yielding the offset of
the following packet. -/
def Skip (items : List BodyItem) (start : Nat) : Option Nat :=
  (itemAt items start).map (fun i => start + itemSize i)

/-- Modelled from the spec: Partition::SkipFill — skip over any KLVFill at
start.  DRAGONS: does not iterate — only copes with a single KLVFill. -/
def SkipFill (items : List BodyItem) (start : Nat) : Nat :=
  match itemAt items start with
  | some i => if i.kind = ItemKind.fill then start + itemSize i else start
  | none => start

/-- A KLV cursor handed out by NextElement: location and sizes only.  The
value is never read: the chunk stays empty. -/
structure ElementCursor where
  pos : Nat
  klSize : Nat
  valueLen : Nat
  dataChunk : List Nat
deriving DecidableEq

/-- The element-iteration state of class Partition (partition.h lines
183-184); none models the exhausted (null) next-location. -/
structure BodyIter where
  _BodyLocation : Nat
  _NextBodyLocation : Option Nat
deriving DecidableEq

/-- Modelled from the spec: Partition::StartElements — position the iterator
at the first essence KLV of the body region (offset 0 of the region, past a
single leading KLVFill). -/
def StartElements (items : List BodyItem) : BodyIter :=
  { _BodyLocation := 0, _NextBodyLocation := some (SkipFill items 0) }

/-- Modelled from the spec: Partition::NextElement — return a cursor for the
element at _NextBodyLocation without materialising its value, or null when
no essence item is there (next partition pack reached or nothing readable);
on success advance _BodyLocation to the element and _NextBodyLocation to
SkipFill applied to the Skip of the element (skip its KL and value, then at
most one KLVFill). -/
def NextElement (items : List BodyItem) (st : BodyIter) :
    Option ElementCursor × BodyIter :=
  match st._NextBodyLocation with
  | none => (none, st)
  | some pos =>
    match itemAt items pos with
    | none => (none, { st with _NextBodyLocation := none })
    | some i =>
      if i.kind = ItemKind.pack then
        (none, { st with _NextBodyLocation := none })
      else
        (some { pos := pos, klSize := i.klSize, valueLen := i.valueLen,
                dataChunk := [] },
         { _BodyLocation := pos,
           _NextBodyLocation := some (SkipFill items (pos + itemSize i)) })

/-- The cursors produced by repeated NextElement calls, stopping at the
first null; fuel bounds the number of calls. -/
def collectElements (items : List BodyItem) :
    Nat → BodyIter → List ElementCursor
  | 0, _ => []
  | fuel + 1, st =>
    match NextElement items st with
    | (none, _) => []
    | (some c, st') => c :: collectElements items fuel st'

/-- Iteration on the bare next-location, equal to collectElements (helper
for reasoning). -/
def collectFrom (items : List BodyItem) :
    Nat → Option Nat → List ElementCursor
  | 0, _ => []
  | _ + 1, none => []
  | fuel + 1, some pos =>
    match itemAt items pos with
    | none => []
    | some i =>
      if i.kind = ItemKind.pack then []
      else
        { pos := pos, klSize := i.klSize, valueLen := i.valueLen,
          dataChunk := [] } ::
          collectFrom items fuel (some (SkipFill items (pos + itemSize i)))

/-- One step of a well-formed essence region: an essence item followed by at
most one KLVFill. -/
def stepItems : BodyItem × Option BodyItem → List BodyItem
  | (e, some f) => [e, f]
  | (e, none) => [e]

/-- Layout of an essence region: essence items each followed by at most one
fill, then the next partition pack. -/
def regionItems : List (BodyItem × Option BodyItem) → BodyItem →
    List BodyItem
  | [], packItem => [packItem]
  | s :: rest, packItem => stepItems s ++ regionItems rest packItem

/-- Validity of one step: an essence item with a non-empty KL, optionally
followed by one fill with a non-empty KL. -/
def validStep : BodyItem × Option BodyItem → Bool
  | (e, none) => e.kind == ItemKind.essence && decide (0 < e.klSize)
  | (e, some f) => e.kind == ItemKind.essence && decide (0 < e.klSize) &&
      (f.kind == ItemKind.fill && decide (0 < f.klSize))

/-- Byte size of an optional interleaved fill. -/
def fillSizeOf : Option BodyItem → Nat
  | some f => itemSize f
  | none => 0

/-- The cursors an iteration of a region is expected to yield: one per
essence item, at the cumulative offsets, with no value materialised. -/
def expectedCursors : Nat → List (BodyItem × Option BodyItem) →
    List ElementCursor
  | _, [] => []
  | base, (e, f) :: rest =>
    { pos := base, klSize := e.klSize, valueLen := e.valueLen,
      dataChunk := [] } ::
      expectedCursors (base + itemSize e + fillSizeOf f) rest

end Mxflib

namespace Mxflib

/- ================================ Theorems ================================ -/

/- BER codec helper lemmas. -/

theorem natToBytesBE_length (n v : Nat) : (natToBytesBE n v).length = n := by
  induction n generalizing v with
  | zero => rfl
  | succ n ih => simp [natToBytesBE, ih]

theorem bytesToNatBE_append_one (xs : List Nat) (b : Nat) :
    bytesToNatBE (xs ++ [b]) = bytesToNatBE xs * 256 + b := by
  simp [bytesToNatBE, List.foldl_append]

theorem bytesToNatBE_natToBytesBE (n v : Nat) :
    bytesToNatBE (natToBytesBE n v) = v % 256 ^ n := by
  induction n generalizing v with
  | zero => simp [natToBytesBE, bytesToNatBE, Nat.mod_one]
  | succ n ih =>
    rw [natToBytesBE, bytesToNatBE_append_one, ih]
    have h : (256 : Nat) ^ (n + 1) = 256 * 256 ^ n := by ring
    rw [h, Nat.mod_mul]
    omega

theorem berLenBytes_pos (v : Nat) : 1 ≤ berLenBytes v := by
  unfold berLenBytes
  split_ifs <;> omega

theorem berLenBytes_le_eight (v : Nat) : berLenBytes v ≤ 8 := by
  unfold berLenBytes
  split_ifs <;> omega

theorem lt_pow_berLenBytes (v : Nat) (hv : v < 2 ^ 64) :
    v < 256 ^ berLenBytes v := by
  unfold berLenBytes
  split_ifs <;> norm_num <;> omega

theorem berDecode_longform (k v : Nat) (h1 : 1 ≤ k) (h8 : k ≤ 8)
    (hv : v < 256 ^ k) (rest : List Nat) :
    berDecode ((0x80 + k) :: (natToBytesBE k v ++ rest)) = some (v, rest) := by
  have hlen : (natToBytesBE k v).length = k := natToBytesBE_length k v
  have htake : (natToBytesBE k v ++ rest).take k = natToBytesBE k v := by
    have := List.take_left (natToBytesBE k v) rest
    rwa [hlen] at this
  have hdrop : (natToBytesBE k v ++ rest).drop k = rest := by
    have := List.drop_left (natToBytesBE k v) rest
    rwa [hlen] at this
  rw [berDecode]
  have hb : ¬ (0x80 + k < 0x80) := by omega
  have hn : 0x80 + k - 0x80 = k := by omega
  simp only [hb, if_false, hn]
  have hguard : 1 ≤ k ∧ k ≤ 8 ∧ k ≤ (natToBytesBE k v ++ rest).length := by
    refine ⟨h1, h8, ?_⟩
    simp [hlen]
  rw [if_pos hguard, htake, hdrop, bytesToNatBE_natToBytesBE,
    Nat.mod_eq_of_lt hv]

/-- C1 (code_bug evidence): on a 64-bit platform (w = 8), a chunk of 4 bytes,
Start = 0, and the documented all-available sentinel Size = (size_t)-1 =
2^64-1, WriteDataFromTo passes 2^64-1 bytes to Base_WriteDataTo instead of
the min(Size, chunkSize - Start) = 4 bytes that the claim (and the function's
own doc comment, "if -1 all available bytes will be written") requires: the
sentinel is converted through Length to -1, adopted as BytesToWrite, and cast
back to size_t as 0xFFFFFFFFFFFFFFFF. -/
theorem writeDataFromTo_sentinel_bug :
    WriteDataFromTo 8 4 0 0 (2 ^ 64 - 1) =
      WriteResult.baseCall 0 0 (2 ^ 64 - 1) ∧
    (2 ^ 64 - 1 : Nat) ≠ min (2 ^ 64 - 1) (4 - 0) := by
  constructor
  · decide
  · decide

/-- C2: on a platform with size_t narrower than 8 bytes, whenever the
computed byte count BytesToWrite exceeds 0xffffffff, WriteDataFromTo takes
the ChunkTooLarge error branch (returns 0 without calling Base_WriteDataTo);
on a platform with 8-byte size_t that branch is never taken. -/
theorem writeDataFromTo_chunkTooLarge (w : Nat) (dataSize : Nat)
    (offset start : Int) (sz : Nat) :
    (w < 8 → (0xffffffff : Int) < bytesToWrite w dataSize start sz →
      WriteDataFromTo w dataSize offset start sz = WriteResult.chunkTooLarge) ∧
    WriteDataFromTo 8 dataSize offset start sz ≠ WriteResult.chunkTooLarge := by
  constructor
  · intro hw hb
    unfold WriteDataFromTo
    simp [hw, hb]
  · unfold WriteDataFromTo
    simp

/-- Witness for C2: a concrete 32-bit instance where the computed count
exceeds 0xffffffff (negative Start makes BytesToWrite = 2^33) and the error
branch is taken, and a concrete 64-bit instance where it is not. -/
theorem writeDataFromTo_chunkTooLarge_witness :
    (4 < 8) ∧
    ((0xffffffff : Int) < bytesToWrite 4 0 (-(2 ^ 33)) 0) ∧
    WriteDataFromTo 4 0 0 (-(2 ^ 33)) 0 = WriteResult.chunkTooLarge ∧
    WriteDataFromTo 8 0 0 (-(2 ^ 33)) 0 ≠ WriteResult.chunkTooLarge :=
  ⟨by decide, by decide,
    (writeDataFromTo_chunkTooLarge 4 0 0 (-(2 ^ 33)) 0).1 (by decide) (by decide),
    (writeDataFromTo_chunkTooLarge 8 0 0 (-(2 ^ 33)) 0).2⟩

/-- C5 counterexample: the cursor invariant is not preserved by arbitrary
public operations.  A materialised cursor with a 1-byte chunk, DataBase = 0
and ValueLength = 1 satisfies the invariant, and a single SetDataBase(-1)
(klvobject.h line 275 stores the argument unchecked) breaks 0 ≤ DataBase. -/
theorem setDataBase_breaks_invariant :
    klvInvariant
      { Source := KLVInfo.initial, Dest := KLVInfo.initial,
        ValueLength := 1, Data := [0], DataBase := 0 } ∧
    ¬ klvInvariant
      (SetDataBase
        { Source := KLVInfo.initial, Dest := KLVInfo.initial,
          ValueLength := 1, Data := [0], DataBase := 0 } (-1)) := by
  constructor
  · decide
  · decide

/-- C5 amended: SetDataBase and SetLength store their arguments verbatim with
no validation, so the invariant holds after SetDataBase(p) exactly when
0 ≤ p and p + chunk size ≤ ValueLength, and after SetLength(n) exactly when
0 ≤ DataBase and DataBase + chunk size ≤ n; it is not maintained across
arbitrary operation sequences. -/
theorem setters_invariant_iff (s : KLVObject) (p n : Int) :
    ((SetDataBase s p).DataBase = p ∧ (SetLength s n).ValueLength = n) ∧
    (klvInvariant (SetDataBase s p) ↔
      0 ≤ p ∧ p + (s.Data.length : Int) ≤ s.ValueLength) ∧
    (klvInvariant (SetLength s n) ↔
      0 ≤ s.DataBase ∧ s.DataBase + (s.Data.length : Int) ≤ n) := by
  refine ⟨⟨rfl, rfl⟩, ?_, ?_⟩
  · unfold klvInvariant SetDataBase
    simp
  · unfold klvInvariant SetLength
    simp

/-- Witness for C5 amended: a concrete in-range SetDataBase preserves the
invariant via the characterisation. -/
theorem setters_invariant_iff_witness :
    klvInvariant
      (SetDataBase
        { Source := KLVInfo.initial, Dest := KLVInfo.initial,
          ValueLength := 3, Data := [7], DataBase := 0 } 2) :=
  (setters_invariant_iff
    { Source := KLVInfo.initial, Dest := KLVInfo.initial,
      ValueLength := 3, Data := [7], DataBase := 0 } 2 0).2.1.mpr (by decide)

/-- C8: SetSource sets the source record (Valid = true, the given file,
Offset = Location, or the file's Tell() when Location < 0, other source
fields unchanged); when the destination record is not yet valid the whole
source record is copied into the destination, and when the destination is
already valid every destination field is left unchanged. -/
theorem setSource_spec (s : KLVObject) (f : MXFFile) (loc : Int) :
    ((SetSource s f loc).Source.Valid = true ∧
     (SetSource s f loc).Source.File = some f ∧
     (SetSource s f loc).Source.Offset = (if loc < 0 then f.tellPos else loc) ∧
     (SetSource s f loc).Source.OuterLength = s.Source.OuterLength ∧
     (SetSource s f loc).Source.KLSize = s.Source.KLSize) ∧
    (s.Dest.Valid = false →
      (SetSource s f loc).Dest = (SetSource s f loc).Source) ∧
    (s.Dest.Valid = true → (SetSource s f loc).Dest = s.Dest) := by
  refine ⟨⟨rfl, rfl, rfl, rfl, rfl⟩, ?_, ?_⟩
  · intro h
    simp [SetSource, h]
  · intro h
    simp [SetSource, h]

/-- Witness for C8: on a fresh cursor the destination aliases the source
after SetSource, and after an explicit SetDestination a later SetSource
leaves the destination untouched. -/
theorem setSource_spec_witness :
    ((({ Source := KLVInfo.initial, Dest := KLVInfo.initial,
         ValueLength := 0, Data := [], DataBase := 0 } : KLVObject).Dest.Valid
        = false) ∧
     (SetSource
        { Source := KLVInfo.initial, Dest := KLVInfo.initial,
          ValueLength := 0, Data := [], DataBase := 0 } ⟨1, 5⟩ (-1)).Dest =
      (SetSource
        { Source := KLVInfo.initial, Dest := KLVInfo.initial,
          ValueLength := 0, Data := [], DataBase := 0 } ⟨1, 5⟩ (-1)).Source) ∧
    (((SetDestination
        { Source := KLVInfo.initial, Dest := KLVInfo.initial,
          ValueLength := 0, Data := [], DataBase := 0 } ⟨2, 9⟩ 3).Dest.Valid
        = true) ∧
     (SetSource
        (SetDestination
          { Source := KLVInfo.initial, Dest := KLVInfo.initial,
            ValueLength := 0, Data := [], DataBase := 0 } ⟨2, 9⟩ 3) ⟨1, 5⟩ 7).Dest =
      (SetDestination
        { Source := KLVInfo.initial, Dest := KLVInfo.initial,
          ValueLength := 0, Data := [], DataBase := 0 } ⟨2, 9⟩ 3).Dest) :=
  ⟨⟨by decide,
    (setSource_spec
      { Source := KLVInfo.initial, Dest := KLVInfo.initial,
        ValueLength := 0, Data := [], DataBase := 0 } ⟨1, 5⟩ (-1)).2.1 (by decide)⟩,
   ⟨by decide,
    (setSource_spec
      (SetDestination
        { Source := KLVInfo.initial, Dest := KLVInfo.initial,
          ValueLength := 0, Data := [], DataBase := 0 } ⟨2, 9⟩ 3) ⟨1, 5⟩ 7).2.2
      (by decide)⟩⟩

/-- C10: SetKLSize changes only the destination KL size; GetKLSize returns
the source KL size whenever it is non-negative and falls back to the
destination KL size otherwise; hence on a cursor whose source KL size is
known (non-negative, as after reading from a file) SetKLSize does not change
what GetKLSize returns. -/
theorem setKLSize_getKLSize_spec (s : KLVObject) (n : Int) :
    ((SetKLSize s n).Dest.KLSize = n ∧
     (SetKLSize s n).Source = s.Source ∧
     (SetKLSize s n).ValueLength = s.ValueLength ∧
     (SetKLSize s n).Data = s.Data ∧
     (SetKLSize s n).DataBase = s.DataBase ∧
     (SetKLSize s n).Dest.Valid = s.Dest.Valid ∧
     (SetKLSize s n).Dest.File = s.Dest.File ∧
     (SetKLSize s n).Dest.Offset = s.Dest.Offset ∧
     (SetKLSize s n).Dest.OuterLength = s.Dest.OuterLength) ∧
    (GetKLSize s =
      if s.Source.KLSize ≥ 0 then s.Source.KLSize else s.Dest.KLSize) ∧
    (s.Source.KLSize ≥ 0 → GetKLSize (SetKLSize s n) = GetKLSize s) := by
  refine ⟨⟨rfl, rfl, rfl, rfl, rfl, rfl, rfl, rfl, rfl⟩, rfl, ?_⟩
  intro h
  simp [GetKLSize, SetKLSize, h]

/-- C6: BER round-trip.  For every length below 2^63, decoding the
minimal-width encoding yields the length back (with the rest of the stream
untouched), and decoding a fixed-width encoding of width w yields it back
whenever w is at least min_width (and at most the BER limit of 8); moreover
encode 0 = [0x00], encode 127 = [0x7F], encode 128 = [0x81, 0x80] and
encode 65535 = [0x82, 0xFF, 0xFF]. -/
theorem berEncode_decode_roundtrip :
    (∀ v rest, v < 2 ^ 63 →
      berDecode (berEncode v ++ rest) = some (v, rest) ∧
      ∀ w, berLenBytes v ≤ w → w ≤ 8 →
        ∃ bs, berEncodeFixed v w = some bs ∧
          berDecode (bs ++ rest) = some (v, rest)) ∧
    berEncode 0 = [0x00] ∧
    berEncode 127 = [0x7f] ∧
    berEncode 128 = [0x81, 0x80] ∧
    berEncode 65535 = [0x82, 0xff, 0xff] := by
  refine ⟨?_, by decide, by decide, by decide, by decide⟩
  intro v rest hv
  have hv64 : v < 2 ^ 64 := by omega
  constructor
  · by_cases h : v < 0x80
    · simp [berEncode, h, berDecode]
    · have h1 := berLenBytes_pos v
      have h8 := berLenBytes_le_eight v
      have hlt := lt_pow_berLenBytes v hv64
      simp only [berEncode, h, if_false, List.cons_append]
      exact berDecode_longform _ v h1 h8 hlt rest
  · intro w hw1 hw8
    have h1 : 1 ≤ w := le_trans (berLenBytes_pos v) hw1
    have hvw : v < 256 ^ w :=
      lt_of_lt_of_le (lt_pow_berLenBytes v hv64)
        (Nat.pow_le_pow_right (by norm_num) hw1)
    refine ⟨(0x80 + w) :: natToBytesBE w v, ?_, ?_⟩
    · simp [berEncodeFixed, h1, hw8, hvw]
    · simpa using berDecode_longform w v h1 hw8 hvw rest

/-- Witness for C6: the round-trip applied at 128 with an empty remainder,
and at fixed width 3 for 65535. -/
theorem berEncode_decode_roundtrip_witness :
    ((128 : Nat) < 2 ^ 63) ∧
    berDecode (berEncode 128 ++ []) = some (128, []) ∧
    (berLenBytes 65535 ≤ 3 ∧ (3 : Nat) ≤ 8) ∧
    ∃ bs, berEncodeFixed 65535 3 = some bs ∧
      berDecode (bs ++ []) = some (65535, []) :=
  ⟨by decide,
   (berEncode_decode_roundtrip.1 128 [] (by decide)).1,
   ⟨by decide, by decide⟩,
   (berEncode_decode_roundtrip.1 65535 [] (by decide)).2 3 (by decide) (by decide)⟩

/-- Witness for C10: a cursor with source KL size 20 keeps GetKLSize = 20
after SetKLSize 4. -/
theorem setKLSize_getKLSize_spec_witness :
    (({ Source := { KLVInfo.initial with KLSize := 20 },
        Dest := KLVInfo.initial, ValueLength := 0, Data := [],
        DataBase := 0 } : KLVObject).Source.KLSize ≥ 0) ∧
    GetKLSize
      (SetKLSize
        { Source := { KLVInfo.initial with KLSize := 20 },
          Dest := KLVInfo.initial, ValueLength := 0, Data := [],
          DataBase := 0 } 4) =
    GetKLSize
      { Source := { KLVInfo.initial with KLSize := 20 },
        Dest := KLVInfo.initial, ValueLength := 0, Data := [],
        DataBase := 0 } :=
  ⟨by decide,
   (setKLSize_getKLSize_spec
     { Source := { KLVInfo.initial with KLSize := 20 },
       Dest := KLVInfo.initial, ValueLength := 0, Data := [],
       DataBase := 0 } 4).2.2 (by decide)⟩

/- Reference-resolver helper lemmas. -/

theorem alookup_filter_ne (T : List (UUID × Nat)) (u u' : UUID) (h : u' ≠ u) :
    alookup (T.filter (fun e => decide (e.1 ≠ u))) u' = alookup T u' := by
  induction T with
  | nil => rfl
  | cons e rest ih =>
    rw [List.filter_cons]
    by_cases he : e.1 = u
    · have hd : decide (e.1 ≠ u) = false := by simp [he]
      rw [hd]
      simp only [Bool.false_eq_true, if_false]
      rw [ih, alookup]
      have hne : ¬ e.1 = u' := by
        rw [he]
        exact fun hh => h hh.symm
      rw [if_neg hne]
    · have hd : decide (e.1 ≠ u) = true := by simp [he]
      rw [hd]
      simp only [if_true]
      rw [alookup, alookup]
      by_cases he' : e.1 = u'
      · rw [if_pos he', if_pos he']
      · rw [if_neg he', if_neg he', ih]

theorem alookup_mem (T : List (UUID × Nat)) (u : UUID) (t : Nat)
    (h : alookup T u = some t) : (u, t) ∈ T := by
  induction T with
  | nil => simp [alookup] at h
  | cons e rest ih =>
    rw [alookup] at h
    by_cases he : e.1 = u
    · rw [if_pos he] at h
      have h2 : e.2 = t := by injection h
      have he2 : (u, t) = e := by
        obtain ⟨e1, e2⟩ := e
        simp only [Prod.mk.injEq]
        exact ⟨he.symm, h2.symm⟩
      rw [he2]
      exact List.mem_cons_self _ _
    · rw [if_neg he] at h
      exact List.mem_cons_of_mem _ (ih h)

theorem uidPairs_append (xs ys : List MDObject) :
    uidPairs (xs ++ ys) = uidPairs xs ++ uidPairs ys := by
  induction xs with
  | nil => simp [uidPairs]
  | cons o rest ih => simp [uidPairs, ih]

theorem refPairs_append (xs ys : List MDObject) :
    refPairs (xs ++ ys) = refPairs xs ++ refPairs ys := by
  induction xs with
  | nil => simp [refPairs]
  | cons o rest ih => simp [refPairs, ih]

theorem mem_uidPairs (xs : List MDObject) (u : UUID) (t : Nat) :
    (u, t) ∈ uidPairs xs ↔
      ∃ o, o ∈ xs ∧ o.instanceUID = some u ∧ o.oid = t := by
  induction xs with
  | nil => simp [uidPairs]
  | cons o rest ih =>
    rw [uidPairs]
    cases ho : o.instanceUID with
    | none =>
      simp only [List.nil_append, ih, List.mem_cons]
      constructor
      · rintro ⟨b, hb, hbu, hbt⟩
        exact ⟨b, Or.inr hb, hbu, hbt⟩
      · rintro ⟨b, hb | hb, hbu, hbt⟩
        · subst hb
          rw [ho] at hbu
          cases hbu
        · exact ⟨b, hb, hbu, hbt⟩
    | some u₀ =>
      simp only [List.cons_append, List.nil_append, List.mem_cons, ih,
        Prod.mk.injEq]
      constructor
      · rintro (⟨hu, ht⟩ | ⟨b, hb, hbu, hbt⟩)
        · exact ⟨o, Or.inl rfl, by rw [ho, hu], ht.symm⟩
        · exact ⟨b, Or.inr hb, hbu, hbt⟩
      · rintro ⟨b, hb | hb, hbu, hbt⟩
        · subst hb
          rw [ho] at hbu
          injection hbu with hbu
          exact Or.inl ⟨hbu.symm, hbt.symm⟩
        · exact Or.inr ⟨b, hb, hbu, hbt⟩

theorem mem_refPairs (xs : List MDObject) (a : Nat) (r : MDRef) :
    (a, r) ∈ refPairs xs ↔ ∃ o, o ∈ xs ∧ o.oid = a ∧ r ∈ o.refs := by
  induction xs with
  | nil => simp [refPairs]
  | cons o rest ih =>
    rw [refPairs]
    simp only [List.mem_append, List.mem_map, ih, List.mem_cons,
      Prod.mk.injEq]
    constructor
    · rintro (⟨r', hr', ha, hr⟩ | ⟨b, hb, hba, hbr⟩)
      · exact ⟨o, Or.inl rfl, ha, by rw [← hr]; exact hr'⟩
      · exact ⟨b, Or.inr hb, hba, hbr⟩
    · rintro ⟨b, hb | hb, hba, hbr⟩
      · subst hb
        exact Or.inl ⟨r, hbr, hba, rfl⟩
      · exact Or.inr ⟨b, hb, hba, hbr⟩

theorem uidPairs_keys (xs : List MDObject) :
    (uidPairs xs).map Prod.fst = xs.filterMap MDObject.instanceUID := by
  induction xs with
  | nil => simp [uidPairs]
  | cons o rest ih =>
    rw [uidPairs]
    cases ho : o.instanceUID with
    | none => simp [ho, ih]
    | some u => simp [ho, ih]

theorem tfun_of_nodup_keys (T : List (UUID × Nat))
    (h : (T.map Prod.fst).Nodup) : TFun T := by
  induction T with
  | nil =>
    intro u t t' ht _
    simp at ht
  | cons e rest ih =>
    simp only [List.map_cons, List.nodup_cons] at h
    intro u t t' ht ht'
    rcases List.mem_cons.mp ht with he | he
    · rcases List.mem_cons.mp ht' with he' | he'
      · have := he.trans he'.symm
        exact ((Prod.mk.injEq _ _ _ _).mp this).2
      · exfalso
        apply h.1
        have hu : e.1 = u := (congrArg Prod.fst he).symm
        rw [hu]
        exact List.mem_map.mpr ⟨(u, t'), he', rfl⟩
    · rcases List.mem_cons.mp ht' with he' | he'
      · exfalso
        apply h.1
        have hu : e.1 = u := (congrArg Prod.fst he').symm
        rw [hu]
        exact List.mem_map.mpr ⟨(u, t), he, rfl⟩
      · exact ih h.2 u t t' he he'

theorem tfun_append_fresh (T : List (UUID × Nat)) (u : UUID) (t : Nat)
    (hT : TFun T) (hfresh : ∀ t', (u, t') ∉ T) :
    TFun (T ++ [(u, t)]) := by
  intro u' a b ha hb
  rcases List.mem_append.mp ha with ha | ha
  · rcases List.mem_append.mp hb with hb | hb
    · exact hT u' a b ha hb
    · simp at hb
      exfalso
      exact hfresh a (by rw [hb.1] at ha; exact ha)
  · rcases List.mem_append.mp hb with hb | hb
    · simp at ha
      exfalso
      exact hfresh b (by rw [ha.1] at hb; exact hb)
    · simp at ha hb
      rw [ha.2, hb.2]

theorem emptyPartitionMeta_inv : ResolverInv [] [] [] emptyPartitionMeta := by
  refine ⟨rfl, ?_, ?_, ?_⟩
  · intro u t
    simp [alookup, emptyPartitionMeta]
  · intro u a s
    simp [emptyPartitionMeta]
  · intro l
    simp [emptyPartitionMeta]

theorem processRef_inv (A : List MDObject) (T : List (UUID × Nat))
    (R : List (Nat × MDRef)) (p : PartitionMeta) (a : Nat) (r : MDRef)
    (h : ResolverInv A T R p) (hT : TFun T) :
    ResolverInv A T (R ++ [(a, r)]) (processRef p a r) := by
  cases halo : alookup p.RefTargets r.target with
  | some t =>
    have ht : (r.target, t) ∈ T := (h.refT _ _).mp halo
    have hpr : processRef p a r =
        { p with Resolved := p.Resolved ++ [⟨a, r.isStrong, t⟩] } := by
      unfold processRef
      rw [halo]
    rw [hpr]
    refine ⟨h.allEq, h.refT, ?_, ?_⟩
    · intro u a' s
      rw [h.unmatchedEq]
      constructor
      · rintro ⟨hR, hTn⟩
        exact ⟨List.mem_append.mpr (Or.inl hR), hTn⟩
      · rintro ⟨hR, hTn⟩
        rcases List.mem_append.mp hR with hR | hR
        · exact ⟨hR, hTn⟩
        · exfalso
          simp only [List.mem_singleton, Prod.mk.injEq] at hR
          have hu : u = r.target := congrArg MDRef.target hR.2
          exact hTn t (by rw [hu]; exact ht)
    · intro l
      constructor
      · intro hl
        rcases List.mem_append.mp hl with hl | hl
        · obtain ⟨u, hR, hTT⟩ := (h.resolvedEq l).mp hl
          exact ⟨u, List.mem_append.mpr (Or.inl hR), hTT⟩
        · rw [List.mem_singleton] at hl
          subst hl
          exact ⟨r.target,
            List.mem_append.mpr (Or.inr (List.mem_singleton.mpr rfl)), ht⟩
      · rintro ⟨u, hR, hTT⟩
        rcases List.mem_append.mp hR with hR | hR
        · exact List.mem_append.mpr
            (Or.inl ((h.resolvedEq l).mpr ⟨u, hR, hTT⟩))
        · refine List.mem_append.mpr (Or.inr ?_)
          rw [List.mem_singleton] at hR ⊢
          have hu : u = r.target :=
            congrArg MDRef.target (congrArg Prod.snd hR)
          have hs : l.isStrong = r.isStrong :=
            congrArg MDRef.isStrong (congrArg Prod.snd hR)
          have hf : l.referrer = a := congrArg Prod.fst hR
          have htg : l.target = t := by
            apply hT r.target l.target t _ ht
            rw [← hu]
            exact hTT
          obtain ⟨lr, ls, lt⟩ := l
          simp only at hf hs htg
          simp only [ResolvedLink.mk.injEq]
          exact ⟨hf, hs, htg⟩
  | none =>
    have hnotT : ∀ t, (r.target, t) ∉ T := by
      intro t htT
      have hsome := (h.refT r.target t).mpr htT
      rw [halo] at hsome
      cases hsome
    have hpr : processRef p a r =
        { p with
          UnmatchedRefs := p.UnmatchedRefs ++ [(r.target, a, r.isStrong)] } := by
      unfold processRef
      rw [halo]
    rw [hpr]
    refine ⟨h.allEq, h.refT, ?_, ?_⟩
    · intro u a' s
      constructor
      · intro hm
        rcases List.mem_append.mp hm with hm | hm
        · obtain ⟨hR, hTn⟩ := (h.unmatchedEq u a' s).mp hm
          exact ⟨List.mem_append.mpr (Or.inl hR), hTn⟩
        · rw [List.mem_singleton] at hm
          have h1 : u = r.target := congrArg Prod.fst hm
          have h2 : a' = a := congrArg Prod.fst (congrArg Prod.snd hm)
          have h3 : s = r.isStrong := congrArg Prod.snd (congrArg Prod.snd hm)
          refine ⟨List.mem_append.mpr (Or.inr ?_), ?_⟩
          · rw [h1, h2, h3]
            exact List.mem_singleton.mpr rfl
          · rw [h1]
            exact hnotT
      · rintro ⟨hR, hTn⟩
        rcases List.mem_append.mp hR with hR | hR
        · exact List.mem_append.mpr
            (Or.inl ((h.unmatchedEq u a' s).mpr ⟨hR, hTn⟩))
        · refine List.mem_append.mpr (Or.inr ?_)
          rw [List.mem_singleton] at hR ⊢
          have hu : u = r.target :=
            congrArg MDRef.target (congrArg Prod.snd hR)
          have hs : s = r.isStrong :=
            congrArg MDRef.isStrong (congrArg Prod.snd hR)
          have ha' : a' = a := congrArg Prod.fst hR
          rw [hu, hs, ha']
    · intro l
      rw [h.resolvedEq]
      constructor
      · rintro ⟨u, hR, hTT⟩
        exact ⟨u, List.mem_append.mpr (Or.inl hR), hTT⟩
      · rintro ⟨u, hR, hTT⟩
        rcases List.mem_append.mp hR with hR | hR
        · exact ⟨u, hR, hTT⟩
        · exfalso
          simp only [List.mem_singleton, Prod.mk.injEq] at hR
          have hu : u = r.target := congrArg MDRef.target hR.2
          exact hnotT l.target (by rw [← hu]; exact hTT)

theorem registerTarget_inv (A : List MDObject) (T : List (UUID × Nat))
    (R : List (Nat × MDRef)) (p : PartitionMeta) (u : UUID) (oid : Nat)
    (h : ResolverInv A T R p) (hfresh : ∀ t, (u, t) ∉ T) :
    ResolverInv A (T ++ [(u, oid)]) R (registerTarget p u oid) := by
  refine ⟨h.allEq, ?_, ?_, ?_⟩
  · intro u' t
    show alookup ((u, oid) :: p.RefTargets.filter (fun e => decide (e.1 ≠ u)))
        u' = some t ↔ _
    rw [alookup]
    by_cases hu : u' = u
    · subst hu
      rw [if_pos rfl]
      constructor
      · intro hsome
        have : oid = t := by injection hsome
        subst this
        exact List.mem_append.mpr (Or.inr (by simp))
      · intro hmem
        rcases List.mem_append.mp hmem with hmem | hmem
        · exact absurd hmem (hfresh t)
        · simp only [List.mem_singleton, Prod.mk.injEq] at hmem
          rw [hmem.2]
    · have hcond : ¬ (u = u') := fun hh => hu hh.symm
      rw [if_neg hcond, alookup_filter_ne _ _ _ hu, h.refT]
      constructor
      · intro hmem
        exact List.mem_append.mpr (Or.inl hmem)
      · intro hmem
        rcases List.mem_append.mp hmem with hmem | hmem
        · exact hmem
        · exfalso
          simp only [List.mem_singleton, Prod.mk.injEq] at hmem
          exact hu hmem.1
  · intro u' a s
    show (u', a, s) ∈ p.UnmatchedRefs.filter (fun e => decide (e.1 ≠ u)) ↔ _
    rw [List.mem_filter]
    simp only [decide_eq_true_eq]
    rw [h.unmatchedEq]
    constructor
    · rintro ⟨⟨hR, hTn⟩, hne⟩
      refine ⟨hR, ?_⟩
      intro t htm
      rcases List.mem_append.mp htm with htm | htm
      · exact hTn t htm
      · simp only [List.mem_singleton, Prod.mk.injEq] at htm
        exact hne htm.1
    · rintro ⟨hR, hTn⟩
      have hne : u' ≠ u := by
        intro hh
        exact hTn oid (List.mem_append.mpr (Or.inr (by simp [hh])))
      exact ⟨⟨hR, fun t htm => hTn t (List.mem_append.mpr (Or.inl htm))⟩, hne⟩
  · intro l
    show l ∈ p.Resolved ++
        (p.UnmatchedRefs.filter (fun e => decide (e.1 = u))).map
          (fun e => { referrer := e.2.1, isStrong := e.2.2, target := oid }) ↔ _
    rw [List.mem_append]
    constructor
    · rintro (hl | hl)
      · obtain ⟨u', hR, hTT⟩ := (h.resolvedEq l).mp hl
        exact ⟨u', hR, List.mem_append.mpr (Or.inl hTT)⟩
      · simp only [List.mem_map, List.mem_filter, decide_eq_true_eq] at hl
        obtain ⟨e, ⟨hem, heu⟩, hle⟩ := hl
        have hem' : (u, e.2.1, e.2.2) ∈ p.UnmatchedRefs := by
          rw [← heu]
          exact hem
        obtain ⟨hRm, _⟩ := (h.unmatchedEq u e.2.1 e.2.2).mp hem'
        refine ⟨u, ?_, ?_⟩
        · rw [← hle]
          exact hRm
        · refine List.mem_append.mpr (Or.inr ?_)
          rw [← hle]
          simp
    · rintro ⟨u', hR, hTT⟩
      rcases List.mem_append.mp hTT with hTT | hTT
      · exact Or.inl ((h.resolvedEq l).mpr ⟨u', hR, hTT⟩)
      · simp only [List.mem_singleton, Prod.mk.injEq] at hTT
        obtain ⟨hu', htg⟩ := hTT
        rw [hu'] at hR
        right
        have hum : (u, l.referrer, l.isStrong) ∈ p.UnmatchedRefs :=
          (h.unmatchedEq _ _ _).mpr ⟨hR, hfresh⟩
        simp only [List.mem_map, List.mem_filter, decide_eq_true_eq]
        refine ⟨(u, l.referrer, l.isStrong), ⟨hum, rfl⟩, ?_⟩
        obtain ⟨lr, ls, lt⟩ := l
        simp only at htg
        rw [htg]

theorem refsFold_inv (A : List MDObject) (T : List (UUID × Nat)) (a : Nat)
    (hT : TFun T) :
    ∀ (rs : List MDRef) (R : List (Nat × MDRef)) (p : PartitionMeta),
      ResolverInv A T R p →
      ResolverInv A T (R ++ rs.map (fun r => (a, r)))
        (rs.foldl (fun q r => processRef q a r) p) := by
  intro rs
  induction rs with
  | nil =>
    intro R p h
    simpa using h
  | cons r rest ih =>
    intro R p h
    have h1 := processRef_inv A T R p a r h hT
    have h2 := ih (R ++ [(a, r)]) (processRef p a r) h1
    simpa [List.append_assoc] using h2

theorem processObject_inv (done : List MDObject) (o : MDObject)
    (p : PartitionMeta)
    (h : ResolverInv done (uidPairs done) (refPairs done) p)
    (hT : TFun (uidPairs done))
    (hfresh : ∀ u, o.instanceUID = some u → ∀ t, (u, t) ∉ uidPairs done) :
    ResolverInv (done ++ [o]) (uidPairs (done ++ [o]))
      (refPairs (done ++ [o])) (processObject p o) := by
  have hRapp : refPairs (done ++ [o]) =
      refPairs done ++ o.refs.map (fun r => (o.oid, r)) := by
    rw [refPairs_append, refPairs, refPairs, List.append_nil]
  have h1 : ResolverInv (done ++ [o]) (uidPairs done) (refPairs done)
      { p with AllMetadata := p.AllMetadata ++ [o] } := by
    refine ⟨?_, h.refT, h.unmatchedEq, h.resolvedEq⟩
    show p.AllMetadata ++ [o] = done ++ [o]
    rw [h.allEq]
  cases ho : o.instanceUID with
  | none =>
    have hTapp : uidPairs (done ++ [o]) = uidPairs done := by
      rw [uidPairs_append, uidPairs, uidPairs, ho]
      simp
    have hpo : processObject p o =
        o.refs.foldl (fun q r => processRef q o.oid r)
          { p with AllMetadata := p.AllMetadata ++ [o] } := by
      unfold processObject
      rw [ho]
    rw [hpo, hTapp, hRapp]
    exact refsFold_inv (done ++ [o]) (uidPairs done) o.oid hT o.refs
      (refPairs done) _ h1
  | some u =>
    have hTapp : uidPairs (done ++ [o]) = uidPairs done ++ [(u, o.oid)] := by
      rw [uidPairs_append, uidPairs, uidPairs, ho]
      simp
    have hpo : processObject p o =
        o.refs.foldl (fun q r => processRef q o.oid r)
          (registerTarget { p with AllMetadata := p.AllMetadata ++ [o] } u
            o.oid) := by
      unfold processObject
      rw [ho]
    have h2 := registerTarget_inv (done ++ [o]) (uidPairs done)
      (refPairs done) _ u o.oid h1 (hfresh u ho)
    have hT2 := tfun_append_fresh (uidPairs done) u o.oid hT (hfresh u ho)
    rw [hpo, hTapp, hRapp]
    exact refsFold_inv (done ++ [o]) (uidPairs done ++ [(u, o.oid)]) o.oid hT2
      o.refs (refPairs done) _ h2

theorem readFold_inv :
    ∀ (objs done : List MDObject) (p : PartitionMeta),
      ResolverInv done (uidPairs done) (refPairs done) p →
      ((done ++ objs).filterMap MDObject.instanceUID).Nodup →
      ResolverInv (done ++ objs) (uidPairs (done ++ objs))
        (refPairs (done ++ objs)) (objs.foldl processObject p) := by
  intro objs
  induction objs with
  | nil =>
    intro done p h _
    simpa using h
  | cons o rest ih =>
    intro done p h hnd
    have hnda : (done.filterMap MDObject.instanceUID ++
        (o :: rest).filterMap MDObject.instanceUID).Nodup := by
      rw [← List.filterMap_append]
      exact hnd
    have hT : TFun (uidPairs done) := by
      apply tfun_of_nodup_keys
      rw [uidPairs_keys]
      exact (List.nodup_append.mp hnda).1
    have hfresh : ∀ u, o.instanceUID = some u →
        ∀ t, (u, t) ∉ uidPairs done := by
      intro u hu t hmem
      have h1 : u ∈ done.filterMap MDObject.instanceUID := by
        rw [← uidPairs_keys]
        exact List.mem_map.mpr ⟨(u, t), hmem, rfl⟩
      have h2 : u ∈ (o :: rest).filterMap MDObject.instanceUID := by
        rw [List.filterMap_cons]
        simp [hu]
      exact (List.nodup_append.mp hnda).2.2 h1 h2
    have hstep := processObject_inv done o p h hT hfresh
    have hnd' : (((done ++ [o]) ++ rest).filterMap
        MDObject.instanceUID).Nodup := by
      rw [List.append_assoc]
      simpa using hnd
    have hrec := ih (done ++ [o]) (processObject p o) hstep hnd'
    simpa [List.append_assoc] using hrec

theorem readMetadata_inv (objs : List MDObject)
    (huid : (objs.filterMap MDObject.instanceUID).Nodup) :
    ResolverInv objs (uidPairs objs) (refPairs objs)
      (objs.foldl processObject emptyPartitionMeta) := by
  have h := readFold_inv objs [] emptyPartitionMeta emptyPartitionMeta_inv
    (by simpa using huid)
  simpa using h

theorem mem_strongTargets (p : PartitionMeta) (t : Nat) :
    t ∈ strongTargets p ↔
      ∃ l, l ∈ p.Resolved ∧ l.isStrong = true ∧ l.target = t := by
  simp only [strongTargets, List.mem_map, List.mem_filter]
  constructor
  · rintro ⟨l, ⟨hl, hs⟩, ht⟩
    exact ⟨l, hl, hs, ht⟩
  · rintro ⟨l, hl, hs, ht⟩
    exact ⟨l, ⟨hl, hs⟩, ht⟩

theorem oid_inj (objs : List MDObject) (h : (objs.map MDObject.oid).Nodup) :
    ∀ a b, a ∈ objs → b ∈ objs → a.oid = b.oid → a = b := by
  induction objs with
  | nil =>
    intro a b ha
    simp at ha
  | cons o rest ih =>
    simp only [List.map_cons, List.nodup_cons] at h
    intro a b ha hb he
    rcases List.mem_cons.mp ha with ha | ha
    · rcases List.mem_cons.mp hb with hb | hb
      · rw [ha, hb]
      · exfalso
        apply h.1
        have hob : o.oid = b.oid := by
          rw [← ha]
          exact he
        exact List.mem_map.mpr ⟨b, hb, hob.symm⟩
    · rcases List.mem_cons.mp hb with hb | hb
      · exfalso
        apply h.1
        have hoa : o.oid = a.oid := by
          rw [← hb]
          exact he.symm
        exact List.mem_map.mpr ⟨a, ha, hoa.symm⟩
      · exact ih h.2 a b ha hb he

/-- C3: after ReadMetadata completes on a partition, every UUID that keys
UnmatchedRefs is absent from RefTargets (registering an InstanceUID in
RefTargets drains every matching UnmatchedRefs entry), and every resolved
strong-reference property points to an object contained in AllMetadata. -/
theorem readMetadata_resolution (objs : List MDObject)
    (huid : (objs.filterMap MDObject.instanceUID).Nodup) :
    (∀ u a s, (u, a, s) ∈ (ReadMetadata objs).UnmatchedRefs →
      alookup (ReadMetadata objs).RefTargets u = none) ∧
    (∀ l, l ∈ (ReadMetadata objs).Resolved → l.isStrong = true →
      ∃ o, o ∈ (ReadMetadata objs).AllMetadata ∧ o.oid = l.target) := by
  have hinv := readMetadata_inv objs huid
  constructor
  · intro u a s hm
    have hm' : (u, a, s) ∈
        (objs.foldl processObject emptyPartitionMeta).UnmatchedRefs := hm
    obtain ⟨_, hTn⟩ := (hinv.unmatchedEq u a s).mp hm'
    cases halo : alookup
        (objs.foldl processObject emptyPartitionMeta).RefTargets u with
    | none => exact halo
    | some t =>
      exfalso
      exact hTn t ((hinv.refT u t).mp halo)
  · intro l hl hs
    obtain ⟨u, _, hTT⟩ := (hinv.resolvedEq l).mp hl
    obtain ⟨o, ho, _, hoid⟩ := (mem_uidPairs objs u l.target).mp hTT
    refine ⟨o, ?_, hoid⟩
    show o ∈ (objs.foldl processObject emptyPartitionMeta).AllMetadata
    rw [hinv.allEq]
    exact ho

/-- Witness for C3: one object holding a strong reference to the UUID 99
that no object registers; the reference stays unmatched and 99 is absent
from RefTargets. -/
theorem readMetadata_resolution_witness :
    ((([⟨1, some 10, [⟨true, 99⟩]⟩] : List MDObject).filterMap
        MDObject.instanceUID).Nodup) ∧
    ((99, 1, true) ∈
      (ReadMetadata [⟨1, some 10, [⟨true, 99⟩]⟩]).UnmatchedRefs) ∧
    alookup (ReadMetadata [⟨1, some 10, [⟨true, 99⟩]⟩]).RefTargets 99 =
      none :=
  ⟨by decide, by decide,
   (readMetadata_resolution [⟨1, some 10, [⟨true, 99⟩]⟩] (by decide)).1
     99 1 true (by decide)⟩

/-- C4: after ReadMetadata, an object is in TopLevelMetadata exactly when it
is in AllMetadata and is not the target of a strong reference carried by an
in-partition object (its InstanceUID is not strongly referenced). -/
theorem readMetadata_topLevel (objs : List MDObject)
    (huid : (objs.filterMap MDObject.instanceUID).Nodup)
    (hoid : (objs.map MDObject.oid).Nodup) :
    ∀ o, o ∈ (ReadMetadata objs).TopLevelMetadata ↔
      (o ∈ (ReadMetadata objs).AllMetadata ∧
        ¬ ∃ o', o' ∈ objs ∧ ∃ r, r ∈ o'.refs ∧ r.isStrong = true ∧
          o.instanceUID = some r.target) := by
  have hinv := readMetadata_inv objs huid
  intro o
  have htl : (ReadMetadata objs).TopLevelMetadata =
      computeTopLevel (objs.foldl processObject emptyPartitionMeta) := rfl
  have hall : (ReadMetadata objs).AllMetadata =
      (objs.foldl processObject emptyPartitionMeta).AllMetadata := rfl
  rw [htl, hall, hinv.allEq]
  unfold computeTopLevel
  rw [List.mem_filter, hinv.allEq]
  simp only [decide_eq_true_eq]
  constructor
  · rintro ⟨ho, hns⟩
    refine ⟨ho, ?_⟩
    rintro ⟨o', ho', r, hr, hs, hui⟩
    apply hns
    rw [mem_strongTargets]
    refine ⟨⟨o'.oid, true, o.oid⟩, ?_, rfl, rfl⟩
    rw [hinv.resolvedEq]
    refine ⟨r.target, ?_, ?_⟩
    · rw [mem_refPairs]
      refine ⟨o', ho', rfl, ?_⟩
      have hrr : MDRef.mk true r.target = r := by
        obtain ⟨rs, rt⟩ := r
        simp only at hs ⊢
        rw [hs]
      rw [hrr]
      exact hr
    · rw [mem_uidPairs]
      exact ⟨o, ho, hui, rfl⟩
  · rintro ⟨ho, hne⟩
    refine ⟨ho, ?_⟩
    intro hst
    apply hne
    rw [mem_strongTargets] at hst
    obtain ⟨l, hl, hs, htg⟩ := hst
    rw [hinv.resolvedEq] at hl
    obtain ⟨u, hR, hTT⟩ := hl
    rw [mem_refPairs] at hR
    obtain ⟨o', ho', _, hr⟩ := hR
    rw [mem_uidPairs] at hTT
    obtain ⟨b, hb, hbu, hbt⟩ := hTT
    have hbo : b = o := oid_inj objs hoid b o hb ho (hbt.trans htg)
    refine ⟨o', ho', MDRef.mk l.isStrong u, hr, hs, ?_⟩
    rw [← hbo]
    exact hbu

/-- Witness for C4: a parent carrying a strong reference to the child's
InstanceUID; the parent is top-level (in AllMetadata and not strongly
referenced). -/
theorem readMetadata_topLevel_witness :
    (⟨1, some 10, [⟨true, 20⟩]⟩ : MDObject) ∈
      (ReadMetadata
        [⟨1, some 10, [⟨true, 20⟩]⟩, ⟨2, some 20, []⟩]).AllMetadata ∧
    ¬ ∃ o', o' ∈
        ([⟨1, some 10, [⟨true, 20⟩]⟩, ⟨2, some 20, []⟩] : List MDObject) ∧
      ∃ r, r ∈ o'.refs ∧ r.isStrong = true ∧
        (⟨1, some 10, [⟨true, 20⟩]⟩ : MDObject).instanceUID =
          some r.target :=
  (readMetadata_topLevel [⟨1, some 10, [⟨true, 20⟩]⟩, ⟨2, some 20, []⟩]
    (by decide) (by decide) ⟨1, some 10, [⟨true, 20⟩]⟩).mp (by decide)

/-- C9: IsMetadataComplete returns false in every partition state, whatever
metadata is loaded: the check is unimplemented and only emits a warning. -/
theorem isMetadataComplete_always_false (p : PartitionMeta) :
    (IsMetadataComplete p).1 = false := rfl

/- Essence iteration helper lemmas. -/

theorem itemsSize_append (xs ys : List BodyItem) :
    itemsSize (xs ++ ys) = itemsSize xs + itemsSize ys := by
  induction xs with
  | nil => simp [itemsSize]
  | cons x xs ih =>
    rw [List.cons_append, itemsSize, itemsSize, ih]
    omega

theorem itemAt_append (xs ys : List BodyItem) (p : Nat)
    (hpos : ∀ j ∈ xs, 0 < itemSize j) :
    itemAt (xs ++ ys) (itemsSize xs + p) = itemAt ys p := by
  induction xs with
  | nil => simp [itemsSize]
  | cons x xs ih =>
    have hx : 0 < itemSize x := hpos x (List.mem_cons_self _ _)
    rw [List.cons_append, itemAt]
    have h0 : ¬ (itemsSize (x :: xs) + p = 0) := by
      rw [itemsSize]
      omega
    rw [if_neg h0]
    have h1 : ¬ (itemsSize (x :: xs) + p < itemSize x) := by
      rw [itemsSize]
      omega
    rw [if_neg h1]
    have h2 : itemsSize (x :: xs) + p - itemSize x = itemsSize xs + p := by
      rw [itemsSize]
      omega
    rw [h2]
    exact ih (fun j hj => hpos j (List.mem_cons_of_mem _ hj))

theorem itemAt_boundary (xs : List BodyItem) (i : BodyItem)
    (ys : List BodyItem) (hpos : ∀ j ∈ xs, 0 < itemSize j) :
    itemAt (xs ++ i :: ys) (itemsSize xs) = some i := by
  have h := itemAt_append xs (i :: ys) 0 hpos
  rw [Nat.add_zero] at h
  rw [h, itemAt]
  simp

theorem regionItems_head_not_fill (steps : List (BodyItem × Option BodyItem))
    (packItem : BodyItem) (hv : ∀ s ∈ steps, validStep s = true)
    (hpack : packItem.kind = ItemKind.pack) :
    ∃ j tail, regionItems steps packItem = j :: tail ∧
      ¬ j.kind = ItemKind.fill := by
  cases steps with
  | nil =>
    refine ⟨packItem, [], rfl, ?_⟩
    rw [hpack]
    decide
  | cons s rest =>
    obtain ⟨e, f⟩ := s
    have hvs := hv _ (List.mem_cons_self _ _)
    cases f with
    | none =>
      simp only [validStep, Bool.and_eq_true, beq_iff_eq,
        decide_eq_true_eq] at hvs
      refine ⟨e, regionItems rest packItem, ?_, ?_⟩
      · rw [regionItems]
        simp [stepItems]
      · rw [hvs.1]
        decide
    | some ff =>
      simp only [validStep, Bool.and_eq_true, beq_iff_eq,
        decide_eq_true_eq] at hvs
      refine ⟨e, ff :: regionItems rest packItem, ?_, ?_⟩
      · rw [regionItems]
        simp [stepItems]
      · rw [hvs.1.1]
        decide

theorem collectElements_eq_collectFrom (items : List BodyItem) :
    ∀ fuel st, collectElements items fuel st =
      collectFrom items fuel st._NextBodyLocation := by
  intro fuel
  induction fuel with
  | zero =>
    intro st
    rfl
  | succ n ih =>
    intro st
    rw [collectElements]
    cases ho : st._NextBodyLocation with
    | none =>
      have hne : NextElement items st = (none, st) := by
        unfold NextElement
        rw [ho]
      rw [hne]
      simp [collectFrom]
    | some pos =>
      cases hI : itemAt items pos with
      | none =>
        have hne : NextElement items st =
            (none, { st with _NextBodyLocation := none }) := by
          simp [NextElement, ho, hI]
        rw [hne]
        simp [collectFrom, hI]
      | some i =>
        by_cases hk : i.kind = ItemKind.pack
        · have hne : NextElement items st =
              (none, { st with _NextBodyLocation := none }) := by
            simp [NextElement, ho, hI, hk]
          rw [hne]
          simp [collectFrom, hI, hk]
        · have hne : NextElement items st =
              (some { pos := pos, klSize := i.klSize, valueLen := i.valueLen,
                      dataChunk := [] },
               { _BodyLocation := pos,
                 _NextBodyLocation :=
                   some (SkipFill items (pos + itemSize i)) }) := by
            simp [NextElement, ho, hI, hk]
          rw [hne]
          simp [collectFrom, hI, hk, ih]

theorem collectFrom_region (packItem : BodyItem)
    (hpack : packItem.kind = ItemKind.pack) :
    ∀ (steps : List (BodyItem × Option BodyItem)) (pre : List BodyItem)
      (fuel : Nat),
      (∀ s ∈ steps, validStep s = true) →
      (∀ i ∈ pre, 0 < itemSize i) →
      steps.length < fuel →
      collectFrom (pre ++ regionItems steps packItem) fuel
        (some (itemsSize pre)) =
      expectedCursors (itemsSize pre) steps := by
  intro steps
  induction steps with
  | nil =>
    intro pre fuel _ hpre hfuel
    cases fuel with
    | zero => omega
    | succ n =>
      have hA : itemAt (pre ++ regionItems [] packItem) (itemsSize pre) =
          some packItem := by
        rw [regionItems]
        exact itemAt_boundary pre packItem [] hpre
      rw [collectFrom]
      simp [hA, hpack, expectedCursors]
  | cons s rest ih =>
    obtain ⟨e, f⟩ := s
    intro pre fuel hv hpre hfuel
    have hvs : validStep (e, f) = true := hv _ (List.mem_cons_self _ _)
    have hvr : ∀ s ∈ rest, validStep s = true :=
      fun s hs => hv s (List.mem_cons_of_mem _ hs)
    cases fuel with
    | zero => omega
    | succ n =>
      have hfn : rest.length < n := by
        simp only [List.length_cons] at hfuel
        omega
      cases f with
      | none =>
        simp only [validStep, Bool.and_eq_true, beq_iff_eq,
          decide_eq_true_eq] at hvs
        have hepos : 0 < itemSize e := by
          unfold itemSize
          omega
        have hkne : ¬ e.kind = ItemKind.pack := by
          rw [hvs.1]
          decide
        have hlay : pre ++ regionItems ((e, none) :: rest) packItem =
            pre ++ e :: regionItems rest packItem := by
          rw [regionItems]
          simp [stepItems]
        have hA : itemAt (pre ++ regionItems ((e, none) :: rest) packItem)
            (itemsSize pre) = some e := by
          rw [hlay]
          exact itemAt_boundary pre e _ hpre
        have hpre1 : ∀ i ∈ pre ++ [e], 0 < itemSize i := by
          intro i hi
          rcases List.mem_append.mp hi with hi | hi
          · exact hpre i hi
          · rw [List.mem_singleton] at hi
            subst hi
            exact hepos
        have hSF : SkipFill (pre ++ regionItems ((e, none) :: rest) packItem)
            (itemsSize pre + itemSize e) = itemsSize pre + itemSize e := by
          obtain ⟨j, tail, hj, hjk⟩ :=
            regionItems_head_not_fill rest packItem hvr hpack
          have hAt : itemAt (pre ++ regionItems ((e, none) :: rest) packItem)
              (itemsSize pre + itemSize e) = some j := by
            rw [hlay, hj]
            have hsz : itemsSize pre + itemSize e = itemsSize (pre ++ [e]) := by
              rw [itemsSize_append, itemsSize, itemsSize]
              omega
            have heq : pre ++ e :: j :: tail = (pre ++ [e]) ++ j :: tail := by
              simp
            rw [hsz, heq]
            exact itemAt_boundary (pre ++ [e]) j tail hpre1
          simp [SkipFill, hAt, hjk]
        rw [collectFrom]
        simp only [hA]
        rw [if_neg hkne, hSF, expectedCursors]
        have hfull : pre ++ regionItems ((e, none) :: rest) packItem =
            (pre ++ [e]) ++ regionItems rest packItem := by
          rw [hlay]
          simp
        have hb : itemsSize pre + itemSize e = itemsSize (pre ++ [e]) := by
          rw [itemsSize_append, itemsSize, itemsSize]
          omega
        rw [hfull, hb]
        have hrec := ih (pre ++ [e]) n hvr hpre1 hfn
        rw [hrec]
        simp [fillSizeOf]
      | some ff =>
        simp only [validStep, Bool.and_eq_true, beq_iff_eq,
          decide_eq_true_eq] at hvs
        have hepos : 0 < itemSize e := by
          unfold itemSize
          omega
        have hffpos : 0 < itemSize ff := by
          unfold itemSize
          omega
        have hkne : ¬ e.kind = ItemKind.pack := by
          rw [hvs.1.1]
          decide
        have hlay : pre ++ regionItems ((e, some ff) :: rest) packItem =
            pre ++ e :: ff :: regionItems rest packItem := by
          rw [regionItems]
          simp [stepItems]
        have hA : itemAt (pre ++ regionItems ((e, some ff) :: rest) packItem)
            (itemsSize pre) = some e := by
          rw [hlay]
          exact itemAt_boundary pre e _ hpre
        have hpre1 : ∀ i ∈ pre ++ [e], 0 < itemSize i := by
          intro i hi
          rcases List.mem_append.mp hi with hi | hi
          · exact hpre i hi
          · rw [List.mem_singleton] at hi
            subst hi
            exact hepos
        have hpre2 : ∀ i ∈ pre ++ [e, ff], 0 < itemSize i := by
          intro i hi
          rcases List.mem_append.mp hi with hi | hi
          · exact hpre i hi
          · rcases List.mem_cons.mp hi with hi | hi
            · subst hi
              exact hepos
            · rw [List.mem_singleton] at hi
              subst hi
              exact hffpos
        have hb1 : itemsSize pre + itemSize e = itemsSize (pre ++ [e]) := by
          rw [itemsSize_append, itemsSize, itemsSize]
          omega
        have hSF : SkipFill
            (pre ++ regionItems ((e, some ff) :: rest) packItem)
            (itemsSize pre + itemSize e) =
            itemsSize pre + itemSize e + itemSize ff := by
          have hAt : itemAt
              (pre ++ regionItems ((e, some ff) :: rest) packItem)
              (itemsSize pre + itemSize e) = some ff := by
            rw [hlay]
            have heq : pre ++ e :: ff :: regionItems rest packItem =
                (pre ++ [e]) ++ ff :: regionItems rest packItem := by
              simp
            rw [hb1, heq]
            exact itemAt_boundary (pre ++ [e]) ff _ hpre1
          simp [SkipFill, hAt, hvs.2.1]
        rw [collectFrom]
        simp only [hA]
        rw [if_neg hkne, hSF, expectedCursors]
        simp only [fillSizeOf]
        have hfull : pre ++ regionItems ((e, some ff) :: rest) packItem =
            (pre ++ [e, ff]) ++ regionItems rest packItem := by
          rw [hlay]
          simp
        have hb2 : itemsSize pre + itemSize e + itemSize ff =
            itemsSize (pre ++ [e, ff]) := by
          rw [itemsSize_append, itemsSize, itemsSize, itemsSize]
          omega
        rw [hfull, hb2]
        have hrec := ih (pre ++ [e, ff]) n hvr hpre2 hfn
        rw [hrec]

theorem expectedCursors_chunk :
    ∀ (steps : List (BodyItem × Option BodyItem)) (base : Nat) c,
      c ∈ expectedCursors base steps → c.dataChunk = [] := by
  intro steps
  induction steps with
  | nil =>
    intro base c hc
    simp [expectedCursors] at hc
  | cons s rest ih =>
    obtain ⟨e, f⟩ := s
    intro base c hc
    rw [expectedCursors] at hc
    rcases List.mem_cons.mp hc with hc | hc
    · rw [hc]
    · exact ih _ c hc

/-- C7: for an essence region made of essence items separated by at most one
KLV-Fill each and ended by the next partition pack, StartElements followed
by repeated NextElement yields exactly one cursor per essence item, in file
order and at the right offsets, without materialising any value (all chunks
stay empty), and yields null afterwards (iteration stops at the pack, so the
collected list is exactly the essence items); SkipFill itself does not
iterate: after two consecutive fills it lands on the second fill. -/
theorem essence_iteration (steps : List (BodyItem × Option BodyItem))
    (packItem : BodyItem) (fuel : Nat)
    (hv : ∀ s ∈ steps, validStep s = true)
    (hpack : packItem.kind = ItemKind.pack)
    (hfuel : steps.length < fuel) :
    collectElements (regionItems steps packItem) fuel
        (StartElements (regionItems steps packItem)) =
      expectedCursors 0 steps ∧
    (∀ c, c ∈ expectedCursors 0 steps → c.dataChunk = []) ∧
    (SkipFill [⟨ItemKind.fill, 1, 0⟩, ⟨ItemKind.fill, 1, 0⟩,
        ⟨ItemKind.essence, 1, 0⟩] 0 = 1 ∧
      itemAt [⟨ItemKind.fill, 1, 0⟩, ⟨ItemKind.fill, 1, 0⟩,
        ⟨ItemKind.essence, 1, 0⟩] 1 = some ⟨ItemKind.fill, 1, 0⟩) := by
  refine ⟨?_, fun c hc => expectedCursors_chunk steps 0 c hc, by decide⟩
  rw [collectElements_eq_collectFrom]
  have hsf : SkipFill (regionItems steps packItem) 0 = 0 := by
    obtain ⟨j, tail, hj, hjk⟩ :=
      regionItems_head_not_fill steps packItem hv hpack
    have h0 : itemAt (regionItems steps packItem) 0 = some j := by
      rw [hj, itemAt]
      simp
    simp [SkipFill, h0, hjk]
  show collectFrom (regionItems steps packItem) fuel
      (some (SkipFill (regionItems steps packItem) 0)) = _
  rw [hsf]
  have h := collectFrom_region packItem hpack steps [] fuel hv
    (by intro i hi; simp at hi) hfuel
  simpa [itemsSize] using h

/-- Witness for C7: the essence region [A, fill(17 bytes), B, pack] yields
cursors for A (at 0) and B (at 22) and then stops. -/
theorem essence_iteration_witness :
    (∀ s ∈ ([(⟨ItemKind.essence, 2, 3⟩, some ⟨ItemKind.fill, 1, 16⟩),
        (⟨ItemKind.essence, 2, 5⟩, none)] :
        List (BodyItem × Option BodyItem)), validStep s = true) ∧
    ((⟨ItemKind.pack, 1, 0⟩ : BodyItem).kind = ItemKind.pack) ∧
    collectElements
        (regionItems
          [(⟨ItemKind.essence, 2, 3⟩, some ⟨ItemKind.fill, 1, 16⟩),
           (⟨ItemKind.essence, 2, 5⟩, none)] ⟨ItemKind.pack, 1, 0⟩) 3
        (StartElements
          (regionItems
            [(⟨ItemKind.essence, 2, 3⟩, some ⟨ItemKind.fill, 1, 16⟩),
             (⟨ItemKind.essence, 2, 5⟩, none)] ⟨ItemKind.pack, 1, 0⟩)) =
      expectedCursors 0
        [(⟨ItemKind.essence, 2, 3⟩, some ⟨ItemKind.fill, 1, 16⟩),
         (⟨ItemKind.essence, 2, 5⟩, none)] ∧
    expectedCursors 0
        [(⟨ItemKind.essence, 2, 3⟩, some ⟨ItemKind.fill, 1, 16⟩),
         (⟨ItemKind.essence, 2, 5⟩, none)] =
      [⟨0, 2, 3, []⟩, ⟨22, 2, 5, []⟩] :=
  ⟨by decide, by decide,
   (essence_iteration
     [(⟨ItemKind.essence, 2, 3⟩, some ⟨ItemKind.fill, 1, 16⟩),
      (⟨ItemKind.essence, 2, 5⟩, none)] ⟨ItemKind.pack, 1, 0⟩ 3
     (by decide) (by decide) (by decide)).1,
   by decide⟩

end Mxflib
